import Mathlib

/-!
Shallow embedding of two Qt Creator plugin adapters:

* `src/plugins/bazaar/bazaarclient.cpp` — the Bazaar version-control client:
  argument-list builders (`cloneArguments`, `pullArguments`, `pushArguments`,
  `commitArguments`, `diffArguments`, `logArguments`,
  `commonPullOrPushArguments`), the status-line decoder (`parseStatusLine`)
  and the branch-config scan (`synchronousBranchQuery`).
* `src/plugins/projectexplorer/makestep.cpp` — the make build step:
  `effectiveMakeCommand`, `buildsTarget`, `setBuildTarget`.

Qt types are modelled as follows: `QString` as `String` (with character-level
work done on `String.data : List Char`), `QStringList` as `List String`,
`QVariant` restricted to the three value kinds the code stores (`bool`,
`QString`, `QStringList`) as the inductive `OptionValue`, and the
`ExtraCommandOptions` map (`QMap<int, QVariant>`) as an association list in
key-iteration order (a `QMap` iterates its keys in ascending order, so the
list stands for the map's iteration sequence).
-/

namespace Bazaar

/-- Model of a `QVariant` restricted to the three kinds of values the Bazaar
client stores in its `ExtraCommandOptions` maps: booleans, strings and
string lists. -/
inductive OptionValue where
| bool (b : Bool)
| str (s : String)
| strList (l : List String)
deriving DecidableEq, Repr

/-- `QVariant::toBool` on the three modelled kinds (Qt: a string converts to
`true` unless its lower-case content is empty, `"0"` or `"false"`; a string
list is not convertible to bool and yields `false`). -/
def OptionValue.toBool : OptionValue → Bool
| .bool b => b
| .str s =>
  let ls := s.toLower
  !(ls.isEmpty || ls == "0" || ls == "false")
| .strList _ => false

/-- `QVariant::toString` on the three modelled kinds (Qt: a bool converts to
`"true"`/`"false"`; a string list converts only when it has exactly one
element, otherwise the null string results). -/
def OptionValue.toString : OptionValue → String
| .bool b => if b then "true" else "false"
| .str s => s
| .strList l =>
  match l with
  | [x] => x
  | _ => ""

/-- `QVariant::toStringList` on the three modelled kinds (Qt: a string
converts to the singleton list; a bool is not convertible and yields the
empty list). -/
def OptionValue.toStringList : OptionValue → List String
| .bool _ => []
| .str s => [s]
| .strList l => l

/-- `QVariant::canConvert(QVariant::Bool)` on the three modelled kinds. -/
def canConvertBool : OptionValue → Bool
| .bool _ => true
| .str _ => true
| .strList _ => false

/-- `QVariant::canConvert(QVariant::String)` on the three modelled kinds
(Qt: a string list is convertible exactly when it has one element). -/
def canConvertString : OptionValue → Bool
| .bool _ => true
| .str _ => true
| .strList l => l.length == 1

/-- `QVariant::canConvert(QVariant::StringList)` on the three modelled
kinds. -/
def canConvertStringList : OptionValue → Bool
| .bool _ => false
| .str _ => true
| .strList _ => true

/-- Value carries the `bool` tag. -/
def isBoolValue : OptionValue → Bool
| .bool _ => true
| _ => false

/-- Value carries the single-string tag. -/
def isStringValue : OptionValue → Bool
| .str _ => true
| _ => false

/-- Value carries the string-list tag. -/
def isStringListValue : OptionValue → Bool
| .strList _ => true
| _ => false

/-- Modelled from the spec: the repository's `bazaarclient.h` (not under
`src/`) declares the enum of option ids. The spec describes them as
integer/enum tags unique per operation family; the numeric codes here follow
the dispatch order of the `switch` statements in `bazaarclient.cpp`, which
mirrors the declaration order of the enum. Only distinctness and relative
order matter for any statement below. -/
def UseExistingDirCloneOptionId : Nat := 0

/-- Clone option id (see `UseExistingDirCloneOptionId`). -/
def StackedCloneOptionId : Nat := 1

/-- Clone option id (see `UseExistingDirCloneOptionId`). -/
def StandAloneCloneOptionId : Nat := 2

/-- Clone option id (see `UseExistingDirCloneOptionId`). -/
def BindCloneOptionId : Nat := 3

/-- Clone option id (see `UseExistingDirCloneOptionId`). -/
def SwitchCloneOptionId : Nat := 4

/-- Clone option id (see `UseExistingDirCloneOptionId`). -/
def HardLinkCloneOptionId : Nat := 5

/-- Clone option id (see `UseExistingDirCloneOptionId`). -/
def NoTreeCloneOptionId : Nat := 6

/-- Clone option id (see `UseExistingDirCloneOptionId`). -/
def RevisionCloneOptionId : Nat := 7

/-- Pull/push option id (see `UseExistingDirCloneOptionId`). -/
def RememberPullOrPushOptionId : Nat := 8

/-- Pull/push option id (see `UseExistingDirCloneOptionId`). -/
def OverwritePullOrPushOptionId : Nat := 9

/-- Pull/push option id (see `UseExistingDirCloneOptionId`). -/
def RevisionPullOrPushOptionId : Nat := 10

/-- Pull option id (see `UseExistingDirCloneOptionId`). -/
def LocalPullOptionId : Nat := 11

/-- Push option id (see `UseExistingDirCloneOptionId`). -/
def UseExistingDirPushOptionId : Nat := 12

/-- Push option id (see `UseExistingDirCloneOptionId`). -/
def CreatePrefixPushOptionId : Nat := 13

/-- Commit option id (see `UseExistingDirCloneOptionId`). -/
def AuthorCommitOptionId : Nat := 14

/-- Commit option id (see `UseExistingDirCloneOptionId`). -/
def FixesCommitOptionId : Nat := 15

/-- Commit option id (see `UseExistingDirCloneOptionId`). -/
def LocalCommitOptionId : Nat := 16

/-- `VCSBaseClient::ExtraCommandOptions` is `QMap<int, QVariant>`; modelled
as the association list of its entries in key-iteration (ascending-key)
order. -/
abbrev ExtraCommandOptions := List (Nat × OptionValue)

/-- `addBoolArgument` (anonymous namespace of `bazaarclient.cpp`): appends
`optionName` when the value converts to `true`. The null-pointer early
return is dropped (every call site passes a valid list). -/
def addBoolArgument (optionValue : OptionValue) (optionName : String)
    (arguments : List String) : List String :=
  if optionValue.toBool then arguments ++ [optionName] else arguments

/-- `addRevisionArgument` (anonymous namespace of `bazaarclient.cpp`):
appends `-r <revision>` when the value's string form is non-empty. -/
def addRevisionArgument (optionValue : OptionValue)
    (arguments : List String) : List String :=
  let revision := optionValue.toString
  if revision.isEmpty then arguments else arguments ++ ["-r", revision]

/-- `BazaarClient::cloneArguments`. The `default : Q_ASSERT(false)` case is
a no-op on the produced list (release semantics); whether some assertion
fires is tracked separately by `cloneAssertOk`. -/
def cloneArguments (srcLocation dstLocation : String)
    (extraOptions : ExtraCommandOptions) : List String :=
  let args := extraOptions.foldl (fun acc p =>
    if p.1 = UseExistingDirCloneOptionId then
      addBoolArgument p.2 "--use-existing-dir" acc
    else if p.1 = StackedCloneOptionId then
      addBoolArgument p.2 "--stacked" acc
    else if p.1 = StandAloneCloneOptionId then
      addBoolArgument p.2 "--standalone" acc
    else if p.1 = BindCloneOptionId then
      addBoolArgument p.2 "--bind" acc
    else if p.1 = SwitchCloneOptionId then
      addBoolArgument p.2 "--switch" acc
    else if p.1 = HardLinkCloneOptionId then
      addBoolArgument p.2 "--hardlink" acc
    else if p.1 = NoTreeCloneOptionId then
      addBoolArgument p.2 "--no-tree" acc
    else if p.1 = RevisionCloneOptionId then
      addRevisionArgument p.2 acc
    else acc) []
  let args := args ++ [srcLocation]
  if dstLocation.isEmpty then args else args ++ [dstLocation]

/-- Whether every `Q_ASSERT` in `BazaarClient::cloneArguments` passes on the
given options: each key must be a clone option id and its value convertible
to the kind the handler demands. -/
def cloneAssertOk (extraOptions : ExtraCommandOptions) : Bool :=
  extraOptions.all fun p =>
    if p.1 = UseExistingDirCloneOptionId then canConvertBool p.2
    else if p.1 = StackedCloneOptionId then canConvertBool p.2
    else if p.1 = StandAloneCloneOptionId then canConvertBool p.2
    else if p.1 = BindCloneOptionId then canConvertBool p.2
    else if p.1 = SwitchCloneOptionId then canConvertBool p.2
    else if p.1 = HardLinkCloneOptionId then canConvertBool p.2
    else if p.1 = NoTreeCloneOptionId then canConvertBool p.2
    else if p.1 = RevisionCloneOptionId then canConvertString p.2
    else false

/-- `BazaarClient::commonPullOrPushArguments`: shared pull/push option
subset. Its `default` case is an explicit silent `break`, not an
assertion. -/
def commonPullOrPushArguments (extraOptions : ExtraCommandOptions) :
    List String :=
  extraOptions.foldl (fun acc p =>
    if p.1 = RememberPullOrPushOptionId then
      addBoolArgument p.2 "--remember" acc
    else if p.1 = OverwritePullOrPushOptionId then
      addBoolArgument p.2 "--overwrite" acc
    else if p.1 = RevisionPullOrPushOptionId then
      addRevisionArgument p.2 acc
    else acc) []

/-- Whether every `Q_ASSERT` in `commonPullOrPushArguments` passes (only the
value-conversion assertions inside the two helpers; unknown keys are
silently skipped there). -/
def commonPullOrPushAssertOk (extraOptions : ExtraCommandOptions) : Bool :=
  extraOptions.all fun p =>
    if p.1 = RememberPullOrPushOptionId then canConvertBool p.2
    else if p.1 = OverwritePullOrPushOptionId then canConvertBool p.2
    else if p.1 = RevisionPullOrPushOptionId then canConvertString p.2
    else true

/-- `BazaarClient::pullArguments`: common pull/push options, then pull's own
switch (`--local`; the three common ids `break`; `default : Q_ASSERT`),
then the source location if non-empty. -/
def pullArguments (srcLocation : String)
    (extraOptions : ExtraCommandOptions) : List String :=
  let args := commonPullOrPushArguments extraOptions
  let args := extraOptions.foldl (fun acc p =>
    if p.1 = RememberPullOrPushOptionId then acc
    else if p.1 = OverwritePullOrPushOptionId then acc
    else if p.1 = RevisionPullOrPushOptionId then acc
    else if p.1 = LocalPullOptionId then addBoolArgument p.2 "--local" acc
    else acc) args
  if srcLocation.isEmpty then args else args ++ [srcLocation]

/-- Whether every `Q_ASSERT` reachable from `BazaarClient::pullArguments`
passes: the helper's conversion assertions plus pull's own
`default : Q_ASSERT(false)` on any key outside its switch. -/
def pullAssertOk (extraOptions : ExtraCommandOptions) : Bool :=
  commonPullOrPushAssertOk extraOptions &&
  extraOptions.all fun p =>
    if p.1 = RememberPullOrPushOptionId then true
    else if p.1 = OverwritePullOrPushOptionId then true
    else if p.1 = RevisionPullOrPushOptionId then true
    else if p.1 = LocalPullOptionId then canConvertBool p.2
    else false

/-- `BazaarClient::pushArguments`: common pull/push options, then push's own
switch (`--use-existing-dir`, `--create-prefix`), then the destination
location if non-empty. -/
def pushArguments (dstLocation : String)
    (extraOptions : ExtraCommandOptions) : List String :=
  let args := commonPullOrPushArguments extraOptions
  let args := extraOptions.foldl (fun acc p =>
    if p.1 = RememberPullOrPushOptionId then acc
    else if p.1 = OverwritePullOrPushOptionId then acc
    else if p.1 = RevisionPullOrPushOptionId then acc
    else if p.1 = UseExistingDirPushOptionId then
      addBoolArgument p.2 "--use-existing-dir" acc
    else if p.1 = CreatePrefixPushOptionId then
      addBoolArgument p.2 "--create-prefix" acc
    else acc) args
  if dstLocation.isEmpty then args else args ++ [dstLocation]

/-- Whether every `Q_ASSERT` reachable from `BazaarClient::pushArguments`
passes. -/
def pushAssertOk (extraOptions : ExtraCommandOptions) : Bool :=
  commonPullOrPushAssertOk extraOptions &&
  extraOptions.all fun p =>
    if p.1 = RememberPullOrPushOptionId then true
    else if p.1 = OverwritePullOrPushOptionId then true
    else if p.1 = RevisionPullOrPushOptionId then true
    else if p.1 = UseExistingDirPushOptionId then canConvertBool p.2
    else if p.1 = CreatePrefixPushOptionId then canConvertBool p.2
    else false

/-- `BazaarClient::commitArguments`: author / fixes / local options in map
iteration order, then always `-F <commitMessageFile>` followed by the file
list. -/
def commitArguments (files : List String) (commitMessageFile : String)
    (extraOptions : ExtraCommandOptions) : List String :=
  let args := extraOptions.foldl (fun acc p =>
    if p.1 = AuthorCommitOptionId then
      let committerInfo := p.2.toString
      if committerInfo.isEmpty then acc
      else acc ++ ["--author=" ++ committerInfo]
    else if p.1 = FixesCommitOptionId then
      p.2.toStringList.foldl (fun a fix =>
        if fix.isEmpty then a else a ++ ["--fixes", fix]) acc
    else if p.1 = LocalCommitOptionId then
      addBoolArgument p.2 "--local" acc
    else acc) []
  args ++ ["-F", commitMessageFile] ++ files

/-- Whether every `Q_ASSERT` in `BazaarClient::commitArguments` passes. -/
def commitAssertOk (extraOptions : ExtraCommandOptions) : Bool :=
  extraOptions.all fun p =>
    if p.1 = AuthorCommitOptionId then canConvertString p.2
    else if p.1 = FixesCommitOptionId then canConvertStringList p.2
    else if p.1 = LocalCommitOptionId then canConvertBool p.2
    else false

/-- `BazaarClient::diffArguments`: flattens string / string-list option
values in iteration order (`QTC_ASSERT(false, continue)` on another kind is
non-fatal and skips the entry), then appends the file list if non-empty. -/
def diffArguments (files : List String)
    (extraOptions : ExtraCommandOptions) : List String :=
  let args := extraOptions.foldl (fun acc p =>
    match p.2 with
    | .str s => acc ++ [s]
    | .strList l => acc ++ l
    | .bool _ => acc) []
  if files.isEmpty then args else args ++ files

/-- `BazaarClient::logArguments`: delegates to `diffArguments`. -/
def logArguments (files : List String)
    (extraOptions : ExtraCommandOptions) : List String :=
  diffArguments files extraOptions

/-- Result of `BazaarClient::parseStatusLine` — a `QPair<QString, QString>`
of state name and path, both default-empty. -/
structure StatusPair where
  first : String
  second : String
deriving DecidableEq, Repr

/-- The position-0 decoding chain of `BazaarClient::parseStatusLine`
(`flagVersion` tests). -/
def versionFlagDecode (c : Char) : String :=
  if c = '+' then "Versioned"
  else if c = '-' then "Unversioned"
  else if c = 'R' then "Renamed"
  else if c = '?' then "Unknown"
  else if c = 'X' then "Nonexistent"
  else if c = 'C' then "Conflict"
  else if c = 'P' then "PendingMerge"
  else ""

/-- The position-1 decoding chain of `BazaarClient::parseStatusLine`
(`flagContents` tests); when no content flag matches, `status.first` keeps
the earlier value `fallback`. -/
def contentFlagDecode (c : Char) (fallback : String) : String :=
  if c = 'N' then "Created"
  else if c = 'D' then "Deleted"
  else if c = 'K' then "KindChanged"
  else if c = 'M' then "Modified"
  else fallback

/-- The full flag cascade of `BazaarClient::parseStatusLine` on the line's
characters: position 0 always, position 1 when the length is at least 2,
position 2 (`*` only) when the length is at least 3, later stages
overriding earlier ones. -/
def statusFlagDecode (cs : List Char) : String :=
  let s0 := versionFlagDecode (cs.getD 0 ' ')
  let s1 := if 2 ≤ cs.length then contentFlagDecode (cs.getD 1 ' ') s0
    else s0
  if 3 ≤ cs.length then
    if cs.getD 2 ' ' = '*' then "ExecuteBitChanged" else s1
  else s1

/-- `BazaarClient::parseStatusLine`: decodes the fixed-column status prefix
through `statusFlagDecode` and takes `line.mid(4)` as the path. An empty
line yields the default pair. -/
def parseStatusLine (line : String) : StatusPair :=
  if line.isEmpty then ⟨"", ""⟩ else
  ⟨statusFlagDecode line.data, String.mk (line.data.drop 4)⟩

/-- `QChar::isSpace` restricted to the ASCII whitespace the branch-config
values can contain; `Char.isWhitespace` covers space, tab, CR and LF. -/
def isWs (c : Char) : Bool := c.isWhitespace

/-- Match of the tail pattern `\s*=\s*(.+)$` of the two branch-config
regexps against a character suffix; returns the capture. The first `\s*`
is greedy up to the `=`; the second backtracks by at most one character
when everything after the `=` is whitespace (`.+` needs one character). -/
def matchEqCapture (cs : List Char) : Option String :=
  match cs.dropWhile isWs with
  | [] => none
  | c :: rest =>
    if c = '=' then
      let rem := rest.dropWhile isWs
      if rem.isEmpty then
        match rest.getLast? with
        | some lastC => some (String.mk [lastC])
        | none => none
      else some (String.mk rem)
    else none

/-- `QRegExp(key + "\\s*=\\s*(.+)$").indexIn(line)` followed by `cap(1)`:
searches left to right for the first position where the literal key is
followed by a match of the tail pattern, and returns the capture. -/
def keyValueCapture (key : List Char) : List Char → Option String
| [] => none
| c :: cs =>
  if (c :: cs).take key.length = key then
    match matchEqCapture ((c :: cs).drop key.length) with
    | some cap => some cap
    | none => keyValueCapture key cs
  else keyValueCapture key cs

/-- The scan loop of `BazaarClient::synchronousBranchQuery`: while lines
remain and at least one of the two values is still empty, read a line; a
`bound_location` match stores its capture, else a `bound` match stores
its capture. -/
def scanBranchConf : List String → String → String → String × String
| [], branchLocation, isBranchBound => (branchLocation, isBranchBound)
| line :: rest, branchLocation, isBranchBound =>
  if branchLocation.isEmpty || isBranchBound.isEmpty then
    match keyValueCapture "bound_location".data line.data with
    | some cap => scanBranchConf rest cap isBranchBound
    | none =>
      match keyValueCapture "bound".data line.data with
      | some cap => scanBranchConf rest branchLocation cap
      | none => scanBranchConf rest branchLocation isBranchBound
  else (branchLocation, isBranchBound)

/-- `BranchInfo` (declared in the repository's `bazaarclient.h`): remote
location and bound flag, as described by the spec. -/
structure BranchInfo where
  location : String
  isBound : Bool
deriving DecidableEq, Repr

/-- Maximal non-whitespace runs of a character list; accumulator-based
helper for `simplifiedChars`. -/
def wordsAux : List Char → List Char → List (List Char)
| cur, [] => if cur.isEmpty then [] else [cur.reverse]
| cur, c :: cs =>
  if isWs c then
    if cur.isEmpty then wordsAux [] cs
    else cur.reverse :: wordsAux [] cs
  else wordsAux (c :: cur) cs

/-- The words (maximal non-whitespace runs) of a character list. -/
def words (l : List Char) : List (List Char) := wordsAux [] l

/-- `QString::simplified` on character lists: leading and trailing
whitespace removed, each internal whitespace run collapsed to a single
space — i.e. the words joined by single spaces. -/
def simplifiedChars (l : List Char) : List Char :=
  List.intercalate [' '] (words l)

/-- `QString::toLower` on character lists (ASCII lowering; the compared
token `"true"` is ASCII). -/
def lowerChars (l : List Char) : List Char := l.map Char.toLower

/-- `QString::trimmed` on character lists: whitespace removed from both
ends. -/
def trimmedChars (l : List Char) : List Char :=
  ((l.dropWhile isWs).reverse.dropWhile isWs).reverse

/-- `BazaarClient::synchronousBranchQuery`. The file system is abstracted:
`branchConfLines = none` models the branch config file failing to open,
`some lines` its line list. A scanned `bound` value simplified and lowered
to `"true"` yields the bound result; otherwise the repository root itself
is returned unbound. -/
def synchronousBranchQuery (repositoryRoot : String)
    (branchConfLines : Option (List String)) : BranchInfo :=
  match branchConfLines with
  | none => ⟨"", false⟩
  | some lines =>
    if lowerChars (simplifiedChars (scanBranchConf lines "" "").2.data) =
        "true".data then
      ⟨(scanBranchConf lines "" "").1, true⟩
    else
      ⟨repositoryRoot, false⟩

/-- Claim-side table: the version-flag decoding of `parseStatusLine`
position 0 (empty string when the character is not a version flag). -/
def versionFlagState (c : Char) : String :=
  if c = '+' then "Versioned"
  else if c = '-' then "Unversioned"
  else if c = 'R' then "Renamed"
  else if c = '?' then "Unknown"
  else if c = 'X' then "Nonexistent"
  else if c = 'C' then "Conflict"
  else if c = 'P' then "PendingMerge"
  else ""

/-- Claim-side table: the content-flag decoding of `parseStatusLine`
position 1 (empty string when the character is not a content flag). -/
def contentFlagState (c : Char) : String :=
  if c = 'N' then "Created"
  else if c = 'D' then "Deleted"
  else if c = 'K' then "KindChanged"
  else if c = 'M' then "Modified"
  else ""

/-- Claim-side per-entry emission of the commit option table: `--author=`
token for a non-empty author, a `--fixes <ref>` pair per non-empty fixes
entry, `--local` for a true local flag. -/
def commitEmit (p : Nat × OptionValue) : List String :=
  if p.1 = AuthorCommitOptionId then
    if p.2.toString.isEmpty then [] else ["--author=" ++ p.2.toString]
  else if p.1 = FixesCommitOptionId then
    ((p.2.toStringList.filter (fun fix => !fix.isEmpty)).map
      (fun fix => ["--fixes", fix])).flatten
  else if p.1 = LocalCommitOptionId then
    if p.2.toBool then ["--local"] else []
  else []

/-- Claim-side per-entry emission of the clone option table: one flag token
per boolean option supplied true, a `-r <value>` pair for a non-empty
revision. -/
def cloneEmit (p : Nat × OptionValue) : List String :=
  if p.1 = UseExistingDirCloneOptionId then
    if p.2.toBool then ["--use-existing-dir"] else []
  else if p.1 = StackedCloneOptionId then
    if p.2.toBool then ["--stacked"] else []
  else if p.1 = StandAloneCloneOptionId then
    if p.2.toBool then ["--standalone"] else []
  else if p.1 = BindCloneOptionId then
    if p.2.toBool then ["--bind"] else []
  else if p.1 = SwitchCloneOptionId then
    if p.2.toBool then ["--switch"] else []
  else if p.1 = HardLinkCloneOptionId then
    if p.2.toBool then ["--hardlink"] else []
  else if p.1 = NoTreeCloneOptionId then
    if p.2.toBool then ["--no-tree"] else []
  else if p.1 = RevisionCloneOptionId then
    if p.2.toString.isEmpty then [] else ["-r", p.2.toString]
  else []

/-- Claim-side flattening of a diff/log option value: a string contributes
itself, a string list its elements, anything else nothing. -/
def optionFlatten (v : OptionValue) : List String :=
  match v with
  | .str s => [s]
  | .strList l => l
  | .bool _ => []

/-- The option ids recognized by the clone operation. -/
def cloneOptionIds : List Nat :=
  [UseExistingDirCloneOptionId, StackedCloneOptionId, StandAloneCloneOptionId,
   BindCloneOptionId, SwitchCloneOptionId, HardLinkCloneOptionId,
   NoTreeCloneOptionId, RevisionCloneOptionId]

/-- The option ids recognized by the pull operation. -/
def pullOptionIds : List Nat :=
  [RememberPullOrPushOptionId, OverwritePullOrPushOptionId,
   RevisionPullOrPushOptionId, LocalPullOptionId]

/-- The option ids recognized by the push operation. -/
def pushOptionIds : List Nat :=
  [RememberPullOrPushOptionId, OverwritePullOrPushOptionId,
   RevisionPullOrPushOptionId, UseExistingDirPushOptionId,
   CreatePrefixPushOptionId]

/-- The option ids recognized by the commit operation. -/
def commitOptionIds : List Nat :=
  [AuthorCommitOptionId, FixesCommitOptionId, LocalCommitOptionId]

/-- The value tag each recognized option id expects: revision-like and
author ids expect a string, the fixes id a string list, every other
recognized id a boolean. -/
def expectedTag (k : Nat) (v : OptionValue) : Bool :=
  if k = RevisionCloneOptionId then isStringValue v
  else if k = RevisionPullOrPushOptionId then isStringValue v
  else if k = AuthorCommitOptionId then isStringValue v
  else if k = FixesCommitOptionId then isStringListValue v
  else isBoolValue v

end Bazaar

namespace ProjectExplorer

/-- `Utils::Environment`, abstracted to its variable assignments; the make
step only passes it through to the toolchain. -/
structure Environment where
  vars : List (String × String)

/-- `ProjectExplorer::ToolChain`, abstracted to the one capability the make
step uses: producing a default make command for an environment. -/
structure ToolChain where
  makeCommand : Environment → String

/-- `ProjectExplorer::BuildConfiguration`, abstracted to its environment. -/
structure BuildConfiguration where
  environment : Environment

/-- The state `MakeStep::effectiveMakeCommand` reads: the explicit command
override `m_makeCommand`, the step's own build configuration, the target's
active build configuration fallback, and the kit's C++ toolchain. -/
structure MakeStepState where
  makeCommand : String
  buildConfiguration : Option BuildConfiguration
  activeBuildConfiguration : Option BuildConfiguration
  toolChain : Option ToolChain

/-- The build-configuration resolution of `MakeStep::effectiveMakeCommand`:
the step's own configuration, else the target's active one. -/
def resolvedBuildConfiguration (s : MakeStepState) :
    Option BuildConfiguration :=
  match s.buildConfiguration with
  | some bc => some bc
  | none => s.activeBuildConfiguration

/-- `MakeStep::effectiveMakeCommand`: the non-empty override wins; else the
toolchain's default make command for the resolved configuration's
environment; else the empty string. -/
def effectiveMakeCommand (s : MakeStepState) : String :=
  if !s.makeCommand.isEmpty then s.makeCommand
  else
    match resolvedBuildConfiguration s, s.toolChain with
    | some bc, some tc => tc.makeCommand bc.environment
    | _, _ => ""

/-- `MakeStep::buildsTarget`: membership in the build-target list. -/
def buildsTarget (buildTargets : List String) (target : String) : Bool :=
  buildTargets.contains target

/-- `MakeStep::setBuildTarget`: append a newly switched-on target, remove
(first occurrence, `QList::removeOne`) a switched-off one, otherwise leave
the list unchanged. -/
def setBuildTarget (buildTargets : List String) (target : String)
    (on' : Bool) : List String :=
  if on' && !buildTargets.contains target then buildTargets ++ [target]
  else if !on' && buildTargets.contains target then buildTargets.erase target
  else buildTargets

end ProjectExplorer

namespace Bazaar

theorem addBoolArgument_append (v : OptionValue) (name : String)
    (acc : List String) :
    addBoolArgument v name acc = acc ++ (if v.toBool then [name] else []) := by
  unfold addBoolArgument
  split <;> simp

theorem addRevisionArgument_append (v : OptionValue) (acc : List String) :
    addRevisionArgument v acc =
      acc ++ (if v.toString.isEmpty then [] else ["-r", v.toString]) := by
  unfold addRevisionArgument
  split <;> simp_all

theorem ite_append_left {c : Prop} [Decidable c] (acc x : List String) :
    (if c then acc else acc ++ x) = acc ++ (if c then [] else x) := by
  split <;> simp

theorem ite_append_right {c : Prop} [Decidable c] (acc x : List String) :
    (if c then acc ++ x else acc) = acc ++ (if c then x else []) := by
  split <;> simp

theorem foldl_append_step {α : Type} (f : List String → α → List String)
    (g : α → List String) (l : List α)
    (h : ∀ p ∈ l, ∀ acc, f acc p = acc ++ g p) :
    ∀ a, l.foldl f a = a ++ (l.map g).flatten := by
  induction l with
  | nil => simp
  | cons x xs ih =>
    intro a
    simp only [List.foldl_cons, List.map_cons, List.flatten_cons]
    rw [h x (by simp), ih (fun p hp acc => h p (by simp [hp]) acc)]
    simp

theorem fixes_map_filter (l : List String) :
    (l.map (fun fix => if fix.isEmpty then [] else ["--fixes", fix])).flatten
      = ((l.filter (fun fix => !fix.isEmpty)).map
          (fun fix => ["--fixes", fix])).flatten := by
  induction l with
  | nil => rfl
  | cons x xs ih =>
    by_cases hx : x.isEmpty <;> simp [hx, ih]

end Bazaar

namespace Bazaar

/-- C1: for a commit invocation whose extra options hold only an author
string, a fixes string list and/or a local boolean, `commitArguments`
produces `--author=<value>` only for a non-empty author, a repeated
`--fixes <ref>` pair for each non-empty fixes entry (empty entries
skipped), `--local` only for a true local flag, then always
`-F <commitMessageFile>` followed by the target file list. -/
theorem commitArguments_spec (files : List String)
    (commitMessageFile : String) (extraOptions : ExtraCommandOptions)
    (h : ∀ p ∈ extraOptions,
      (p.1 = AuthorCommitOptionId ∧ isStringValue p.2 = true) ∨
      (p.1 = FixesCommitOptionId ∧ isStringListValue p.2 = true) ∨
      (p.1 = LocalCommitOptionId ∧ isBoolValue p.2 = true)) :
    commitArguments files commitMessageFile extraOptions =
      (extraOptions.map commitEmit).flatten ++
        ["-F", commitMessageFile] ++ files := by
  unfold commitArguments
  rw [foldl_append_step _ commitEmit _ ?_ []]
  · simp
  · intro p hp acc
    rcases h p hp with ⟨hk, _⟩ | ⟨hk, _⟩ | ⟨hk, _⟩
    · simp [commitEmit, hk, AuthorCommitOptionId, FixesCommitOptionId,
        LocalCommitOptionId, ite_append_left]
    · simp only [commitEmit, hk, AuthorCommitOptionId, FixesCommitOptionId,
        LocalCommitOptionId]
      norm_num only
      rw [foldl_append_step _
        (fun fix => if fix.isEmpty then [] else ["--fixes", fix]) _ ?_ acc]
      · rw [fixes_map_filter]
        simp
      · intro fix _ a
        exact ite_append_left a ["--fixes", fix]
    · simp [commitEmit, hk, AuthorCommitOptionId, FixesCommitOptionId,
        LocalCommitOptionId, addBoolArgument_append]

theorem commitArguments_spec_witness :
    commitArguments ["a.txt"] "msg.txt"
      [(AuthorCommitOptionId, OptionValue.str "Jane <j@x.com>"),
       (FixesCommitOptionId, OptionValue.strList ["123", "456"])] =
      ["--author=Jane <j@x.com>", "--fixes", "123", "--fixes", "456",
       "-F", "msg.txt", "a.txt"] := by
  rw [commitArguments_spec _ _ _ (by decide)]
  rfl

/-- C6: for a clone invocation whose extra options hold only recognized,
correctly tagged clone options, `cloneArguments` emits one flag token per
boolean option supplied true (absent when false) and a `-r <value>` pair
for a non-empty revision, with the positional arguments strictly last:
the source location, then the destination location only if non-empty. -/
theorem cloneArguments_spec (srcLocation dstLocation : String)
    (extraOptions : ExtraCommandOptions)
    (h : ∀ p ∈ extraOptions,
      p.1 ∈ cloneOptionIds ∧ expectedTag p.1 p.2 = true) :
    cloneArguments srcLocation dstLocation extraOptions =
      (extraOptions.map cloneEmit).flatten ++ [srcLocation] ++
        (if dstLocation.isEmpty then [] else [dstLocation]) := by
  unfold cloneArguments
  rw [foldl_append_step _ cloneEmit _ ?_ []]
  · split <;> simp
  · intro p hp acc
    obtain ⟨hk, -⟩ := h p hp
    simp only [cloneOptionIds, List.mem_cons, List.not_mem_nil, or_false] at hk
    rcases hk with hk | hk | hk | hk | hk | hk | hk | hk <;>
      simp [cloneEmit, hk, UseExistingDirCloneOptionId,
        StackedCloneOptionId, StandAloneCloneOptionId, BindCloneOptionId,
        SwitchCloneOptionId, HardLinkCloneOptionId, NoTreeCloneOptionId,
        RevisionCloneOptionId, addBoolArgument_append,
        addRevisionArgument_append, ite_append_left]

theorem cloneArguments_spec_witness :
    cloneArguments "A" "B"
      [(StackedCloneOptionId, OptionValue.bool true),
       (RevisionCloneOptionId, OptionValue.str "42")] =
      ["--stacked", "-r", "42", "A", "B"] := by
  rw [cloneArguments_spec _ _ _ (by decide)]
  rfl

/-- C9: `logArguments` returns exactly the argument list of
`diffArguments`, and that list flattens each string or string-list option
value in order, followed by the file list. -/
theorem logArguments_eq_diffArguments (files : List String)
    (extraOptions : ExtraCommandOptions) :
    logArguments files extraOptions = diffArguments files extraOptions ∧
    diffArguments files extraOptions =
      (extraOptions.map (fun p => optionFlatten p.2)).flatten ++ files := by
  refine ⟨rfl, ?_⟩
  unfold diffArguments
  rw [foldl_append_step _ (fun p => optionFlatten p.2) _ ?_ []]
  · split
    · rename_i hf
      simp_all
    · simp
  · intro p hp acc
    obtain ⟨k, v⟩ := p
    cases v <;> simp [optionFlatten]

end Bazaar

namespace ProjectExplorer

/-- C7: `effectiveMakeCommand` returns the explicit override whenever it is
non-empty, regardless of toolchain or build-configuration state; with an
empty override it returns the toolchain's default make command for the
resolved build configuration's environment when both are available, and
the empty string when either is unavailable. -/
theorem effectiveMakeCommand_spec (s : MakeStepState) :
    (s.makeCommand.isEmpty = false →
      effectiveMakeCommand s = s.makeCommand) ∧
    (s.makeCommand.isEmpty = true →
      (∀ bc tc, resolvedBuildConfiguration s = some bc →
        s.toolChain = some tc →
        effectiveMakeCommand s = tc.makeCommand bc.environment) ∧
      ((resolvedBuildConfiguration s = none ∨ s.toolChain = none) →
        effectiveMakeCommand s = "")) := by
  unfold effectiveMakeCommand
  refine ⟨fun h => by simp [h], fun h => ⟨fun bc tc hbc htc => ?_, fun hb => ?_⟩⟩
  · simp [h, hbc, htc]
  · rcases hb with hb | hb
    · simp only [h]
      rw [hb]
      simp
    · simp only [h]
      rw [hb]
      rcases resolvedBuildConfiguration s with _ | bc <;> simp

theorem effectiveMakeCommand_spec_witness :
    effectiveMakeCommand ⟨"custom-make", none, none, none⟩ = "custom-make" ∧
    effectiveMakeCommand
      ⟨"", none, some ⟨⟨[]⟩⟩, some ⟨fun _ => "make"⟩⟩ = "make" ∧
    effectiveMakeCommand ⟨"", none, none, some ⟨fun _ => "make"⟩⟩ = "" := by
  refine ⟨?_, ?_, ?_⟩
  · exact (effectiveMakeCommand_spec ⟨"custom-make", none, none, none⟩).1 rfl
  · exact ((effectiveMakeCommand_spec
      ⟨"", none, some ⟨⟨[]⟩⟩, some ⟨fun _ => "make"⟩⟩).2 rfl).1
      ⟨⟨[]⟩⟩ ⟨fun _ => "make"⟩ rfl rfl
  · exact ((effectiveMakeCommand_spec
      ⟨"", none, none, some ⟨fun _ => "make"⟩⟩).2 rfl).2 (Or.inl rfl)

/-- C10: on a duplicate-free target list, `setBuildTarget` yields a
duplicate-free list in which the target is present exactly when switched
on — appended at the end when newly added, removed when switched off,
unchanged when already in the requested state, the other entries kept in
their original order — so `buildsTarget` returns the switch value right
after the call. -/
theorem setBuildTarget_spec (l : List String) (target : String)
    (on' : Bool) (h : l.Nodup) :
    (setBuildTarget l target on').Nodup ∧
    buildsTarget (setBuildTarget l target on') target = on' ∧
    (on' = true → (l.contains target = true →
        setBuildTarget l target on' = l) ∧
      (l.contains target = false →
        setBuildTarget l target on' = l ++ [target])) ∧
    (on' = false → setBuildTarget l target on' = l.erase target) := by
  unfold setBuildTarget buildsTarget
  cases on' <;> by_cases hc : l.contains target
  · have hm : target ∈ l := by simpa using hc
    simp only [hc, Bool.not_true, Bool.and_false, Bool.false_and,
      Bool.and_true, Bool.true_and, Bool.not_false]
    refine ⟨h.erase target, ?_, by simp, fun _ => by simp⟩
    simp [List.Nodup.mem_erase_iff h]
  · have hm : target ∉ l := by simpa using hc
    simp only [hc, Bool.not_true, Bool.and_false, Bool.false_and,
      Bool.and_true, Bool.true_and, Bool.not_false]
    refine ⟨h, by simpa using hm, by simp, fun _ => ?_⟩
    simp [List.erase_of_not_mem hm]
  · have hm : target ∈ l := by simpa using hc
    simp only [hc, Bool.not_true, Bool.and_false, Bool.false_and,
      Bool.and_true, Bool.true_and, Bool.not_false]
    exact ⟨h, by simpa using hm, fun _ => ⟨fun _ => by simp, by simp⟩,
      by simp⟩
  · have hm : target ∉ l := by simpa using hc
    simp only [hc, Bool.not_true, Bool.and_false, Bool.false_and,
      Bool.and_true, Bool.true_and, Bool.not_false]
    refine ⟨?_, by simp, fun _ => ⟨fun hcc => by simp_all, fun _ => by simp⟩,
      by simp⟩
    simp [List.nodup_append, h, hm]

theorem setBuildTarget_spec_witness :
    setBuildTarget ["all", "clean"] "install" true =
      ["all", "clean", "install"] ∧
    buildsTarget (setBuildTarget ["all", "clean"] "install" true)
      "install" = true ∧
    setBuildTarget ["all", "clean"] "clean" false = ["all"] := by
  refine ⟨?_, ?_, ?_⟩
  · exact (((setBuildTarget_spec ["all", "clean"] "install" true
      (by decide)).2.2.1 rfl).2 (by decide))
  · exact (setBuildTarget_spec ["all", "clean"] "install" true
      (by decide)).2.1
  · exact ((setBuildTarget_spec ["all", "clean"] "clean" false
      (by decide)).2.2.2 rfl).trans (by decide)

end ProjectExplorer

namespace Bazaar

theorem canConvertBool_of_tag {v : OptionValue} (h : isBoolValue v = true) :
    canConvertBool v = true := by
  cases v <;> simp_all [isBoolValue, canConvertBool]

theorem canConvertString_of_tag {v : OptionValue}
    (h : isStringValue v = true) : canConvertString v = true := by
  cases v <;> simp_all [isStringValue, canConvertString]

theorem canConvertStringList_of_tag {v : OptionValue}
    (h : isStringListValue v = true) : canConvertStringList v = true := by
  cases v <;> simp_all [isStringListValue, canConvertStringList]

/-- C8: for each of the four operations with an option table (clone, pull,
push, commit), an option id the operation does not recognize makes some
fatal assertion fire (`…AssertOk = false`), and conversely no assertion
fires when every supplied id is recognized by the operation and carries
its expected value tag. -/
theorem assertOk_spec (extraOptions : ExtraCommandOptions) :
    ((∃ p ∈ extraOptions, p.1 ∉ cloneOptionIds) →
      cloneAssertOk extraOptions = false) ∧
    ((∀ p ∈ extraOptions, p.1 ∈ cloneOptionIds ∧ expectedTag p.1 p.2 = true) →
      cloneAssertOk extraOptions = true) ∧
    ((∃ p ∈ extraOptions, p.1 ∉ pullOptionIds) →
      pullAssertOk extraOptions = false) ∧
    ((∀ p ∈ extraOptions, p.1 ∈ pullOptionIds ∧ expectedTag p.1 p.2 = true) →
      pullAssertOk extraOptions = true) ∧
    ((∃ p ∈ extraOptions, p.1 ∉ pushOptionIds) →
      pushAssertOk extraOptions = false) ∧
    ((∀ p ∈ extraOptions, p.1 ∈ pushOptionIds ∧ expectedTag p.1 p.2 = true) →
      pushAssertOk extraOptions = true) ∧
    ((∃ p ∈ extraOptions, p.1 ∉ commitOptionIds) →
      commitAssertOk extraOptions = false) ∧
    ((∀ p ∈ extraOptions, p.1 ∈ commitOptionIds ∧ expectedTag p.1 p.2 = true)
      → commitAssertOk extraOptions = true) := by
  refine ⟨?_, ?_, ?_, ?_, ?_, ?_, ?_, ?_⟩
  · rintro ⟨p, hp, hk⟩
    simp only [cloneOptionIds, List.mem_cons, List.not_mem_nil, or_false,
      not_or, UseExistingDirCloneOptionId, StackedCloneOptionId,
      StandAloneCloneOptionId, BindCloneOptionId, SwitchCloneOptionId,
      HardLinkCloneOptionId, NoTreeCloneOptionId,
      RevisionCloneOptionId] at hk
    apply List.all_eq_false.mpr
    refine ⟨p, hp, ?_⟩
    simp [cloneAssertOk, UseExistingDirCloneOptionId, StackedCloneOptionId,
      StandAloneCloneOptionId, BindCloneOptionId, SwitchCloneOptionId,
      HardLinkCloneOptionId, NoTreeCloneOptionId, RevisionCloneOptionId,
      hk.1, hk.2.1, hk.2.2.1, hk.2.2.2.1, hk.2.2.2.2.1, hk.2.2.2.2.2.1,
      hk.2.2.2.2.2.2.1, hk.2.2.2.2.2.2.2]
  · intro h
    apply List.all_eq_true.mpr
    intro p hp
    obtain ⟨hk, htag⟩ := h p hp
    simp only [cloneOptionIds, List.mem_cons, List.not_mem_nil,
      or_false] at hk
    rcases hk with hk | hk | hk | hk | hk | hk | hk | hk <;>
      simp only [expectedTag, hk, UseExistingDirCloneOptionId,
        StackedCloneOptionId, StandAloneCloneOptionId, BindCloneOptionId,
        SwitchCloneOptionId, HardLinkCloneOptionId, NoTreeCloneOptionId,
        RevisionCloneOptionId, RevisionPullOrPushOptionId,
        AuthorCommitOptionId, FixesCommitOptionId] at htag ⊢ <;>
      norm_num at htag ⊢ <;>
      first
      | exact canConvertBool_of_tag htag
      | exact canConvertString_of_tag htag
  · rintro ⟨p, hp, hk⟩
    simp only [pullOptionIds, List.mem_cons, List.not_mem_nil, or_false,
      not_or, RememberPullOrPushOptionId, OverwritePullOrPushOptionId,
      RevisionPullOrPushOptionId, LocalPullOptionId] at hk
    apply Bool.and_eq_false_iff.mpr
    right
    apply List.all_eq_false.mpr
    refine ⟨p, hp, ?_⟩
    simp [RememberPullOrPushOptionId, OverwritePullOrPushOptionId,
      RevisionPullOrPushOptionId, LocalPullOptionId,
      hk.1, hk.2.1, hk.2.2.1, hk.2.2.2]
  · intro h
    apply Bool.and_eq_true_iff.mpr
    constructor
    · apply List.all_eq_true.mpr
      intro p hp
      obtain ⟨hk, htag⟩ := h p hp
      simp only [pullOptionIds, List.mem_cons, List.not_mem_nil,
        or_false] at hk
      rcases hk with hk | hk | hk | hk <;>
        simp only [expectedTag, hk, commonPullOrPushAssertOk,
          RememberPullOrPushOptionId, OverwritePullOrPushOptionId,
          RevisionPullOrPushOptionId, LocalPullOptionId,
          RevisionCloneOptionId, AuthorCommitOptionId,
          FixesCommitOptionId] at htag ⊢ <;>
        norm_num at htag ⊢ <;>
        first
        | trivial
        | exact canConvertBool_of_tag htag
        | exact canConvertString_of_tag htag
    · apply List.all_eq_true.mpr
      intro p hp
      obtain ⟨hk, htag⟩ := h p hp
      simp only [pullOptionIds, List.mem_cons, List.not_mem_nil,
        or_false] at hk
      rcases hk with hk | hk | hk | hk <;>
        simp only [expectedTag, hk, RememberPullOrPushOptionId,
          OverwritePullOrPushOptionId, RevisionPullOrPushOptionId,
          LocalPullOptionId, RevisionCloneOptionId, AuthorCommitOptionId,
          FixesCommitOptionId] at htag ⊢ <;>
        norm_num at htag ⊢ <;>
        first
        | trivial
        | exact canConvertBool_of_tag htag
  · rintro ⟨p, hp, hk⟩
    simp only [pushOptionIds, List.mem_cons, List.not_mem_nil, or_false,
      not_or, RememberPullOrPushOptionId, OverwritePullOrPushOptionId,
      RevisionPullOrPushOptionId, UseExistingDirPushOptionId,
      CreatePrefixPushOptionId] at hk
    apply Bool.and_eq_false_iff.mpr
    right
    apply List.all_eq_false.mpr
    refine ⟨p, hp, ?_⟩
    simp [RememberPullOrPushOptionId, OverwritePullOrPushOptionId,
      RevisionPullOrPushOptionId, UseExistingDirPushOptionId,
      CreatePrefixPushOptionId, hk.1, hk.2.1, hk.2.2.1, hk.2.2.2.1,
      hk.2.2.2.2]
  · intro h
    apply Bool.and_eq_true_iff.mpr
    constructor
    · apply List.all_eq_true.mpr
      intro p hp
      obtain ⟨hk, htag⟩ := h p hp
      simp only [pushOptionIds, List.mem_cons, List.not_mem_nil,
        or_false] at hk
      rcases hk with hk | hk | hk | hk | hk <;>
        simp only [expectedTag, hk, commonPullOrPushAssertOk,
          RememberPullOrPushOptionId, OverwritePullOrPushOptionId,
          RevisionPullOrPushOptionId, UseExistingDirPushOptionId,
          CreatePrefixPushOptionId, RevisionCloneOptionId,
          AuthorCommitOptionId, FixesCommitOptionId] at htag ⊢ <;>
        norm_num at htag ⊢ <;>
        first
        | trivial
        | exact canConvertBool_of_tag htag
        | exact canConvertString_of_tag htag
    · apply List.all_eq_true.mpr
      intro p hp
      obtain ⟨hk, htag⟩ := h p hp
      simp only [pushOptionIds, List.mem_cons, List.not_mem_nil,
        or_false] at hk
      rcases hk with hk | hk | hk | hk | hk <;>
        simp only [expectedTag, hk, RememberPullOrPushOptionId,
          OverwritePullOrPushOptionId, RevisionPullOrPushOptionId,
          UseExistingDirPushOptionId, CreatePrefixPushOptionId,
          RevisionCloneOptionId, AuthorCommitOptionId,
          FixesCommitOptionId] at htag ⊢ <;>
        norm_num at htag ⊢ <;>
        first
        | trivial
        | exact canConvertBool_of_tag htag
  · rintro ⟨p, hp, hk⟩
    simp only [commitOptionIds, List.mem_cons, List.not_mem_nil, or_false,
      not_or, AuthorCommitOptionId, FixesCommitOptionId,
      LocalCommitOptionId] at hk
    apply List.all_eq_false.mpr
    refine ⟨p, hp, ?_⟩
    simp [commitAssertOk, AuthorCommitOptionId, FixesCommitOptionId,
      LocalCommitOptionId, hk.1, hk.2.1, hk.2.2]
  · intro h
    apply List.all_eq_true.mpr
    intro p hp
    obtain ⟨hk, htag⟩ := h p hp
    simp only [commitOptionIds, List.mem_cons, List.not_mem_nil,
      or_false] at hk
    rcases hk with hk | hk | hk <;>
      simp only [expectedTag, hk, AuthorCommitOptionId,
        FixesCommitOptionId, LocalCommitOptionId, RevisionCloneOptionId,
        RevisionPullOrPushOptionId] at htag ⊢ <;>
      norm_num at htag ⊢ <;>
      first
      | exact canConvertBool_of_tag htag
      | exact canConvertString_of_tag htag
      | exact canConvertStringList_of_tag htag

theorem assertOk_spec_witness :
    commitAssertOk [(StackedCloneOptionId, OptionValue.bool true)] = false ∧
    cloneAssertOk [(StackedCloneOptionId, OptionValue.bool true)] = true := by
  constructor
  · exact (assertOk_spec
      [(StackedCloneOptionId, OptionValue.bool true)]).2.2.2.2.2.2.1
      ⟨(StackedCloneOptionId, OptionValue.bool true), by simp, by decide⟩
  · exact (assertOk_spec
      [(StackedCloneOptionId, OptionValue.bool true)]).2.1
      (by intro p hp; simp at hp; subst hp; exact ⟨by decide, by decide⟩)

end Bazaar

namespace Bazaar

theorem versionFlagDecode_eq (c : Char) :
    versionFlagDecode c = versionFlagState c := rfl

theorem contentFlagDecode_eq (c : Char) (fallback : String) :
    contentFlagDecode c fallback =
      (if contentFlagState c ≠ "" then contentFlagState c else fallback) := by
  by_cases hN : c = 'N'
  · simp [contentFlagDecode, contentFlagState, hN]
  · by_cases hD : c = 'D'
    · simp [contentFlagDecode, contentFlagState, hN, hD]
    · by_cases hK : c = 'K'
      · simp [contentFlagDecode, contentFlagState, hN, hD, hK]
      · by_cases hM : c = 'M'
        · simp [contentFlagDecode, contentFlagState, hN, hD, hK, hM]
        · simp [contentFlagDecode, contentFlagState, hN, hD, hK, hM]

theorem parseStatusLine_second (line : String) (h : line.isEmpty = false) :
    (parseStatusLine line).second = String.mk (line.data.drop 4) := by
  simp [parseStatusLine, h]

theorem parseStatusLine_first (line : String) (h : line.isEmpty = false) :
    (parseStatusLine line).first = statusFlagDecode line.data := by
  simp [parseStatusLine, h]

theorem statusFlagDecode_exec (cs : List Char) (h3a : 3 ≤ cs.length)
    (h3b : cs.getD 2 ' ' = '*') :
    statusFlagDecode cs = "ExecuteBitChanged" := by
  simp_all [statusFlagDecode]

theorem statusFlagDecode_no_exec (cs : List Char)
    (h3 : ¬(3 ≤ cs.length ∧ cs.getD 2 ' ' = '*')) :
    statusFlagDecode cs =
      (if 2 ≤ cs.length then
          contentFlagDecode (cs.getD 1 ' ') (versionFlagDecode (cs.getD 0 ' '))
        else versionFlagDecode (cs.getD 0 ' ')) := by
  by_cases h3a : 3 ≤ cs.length
  · have h3b : cs.getD 2 ' ' ≠ '*' := fun hb => h3 ⟨h3a, hb⟩
    clear h3
    simp_all [statusFlagDecode]
  · clear h3
    simp_all [statusFlagDecode]

/-- C2: for a non-empty line, `parseStatusLine` decodes position 0 through
the version-flag table; a position-1 content flag (line length at least 2)
overrides the position-0 result; a position-2 `*` (line length at least 3)
overrides everything with `ExecuteBitChanged`. -/
theorem parseStatusLine_state_spec (line : String) (h : line ≠ "") :
    ((3 ≤ line.data.length ∧ line.data.getD 2 ' ' = '*') →
      (parseStatusLine line).first = "ExecuteBitChanged") ∧
    (¬(3 ≤ line.data.length ∧ line.data.getD 2 ' ' = '*') →
      (2 ≤ line.data.length ∧ contentFlagState (line.data.getD 1 ' ') ≠ "")
      → (parseStatusLine line).first =
          contentFlagState (line.data.getD 1 ' ')) ∧
    (¬(3 ≤ line.data.length ∧ line.data.getD 2 ' ' = '*') →
      ¬(2 ≤ line.data.length ∧ contentFlagState (line.data.getD 1 ' ') ≠ "")
      → (parseStatusLine line).first =
          versionFlagState (line.data.getD 0 ' ')) := by
  have hne : line.isEmpty = false := by
    rw [Bool.eq_false_iff]
    intro hx
    exact h ((String.isEmpty_iff line).mp hx)
  rw [parseStatusLine_first line hne]
  refine ⟨fun h3 => ?_, fun h3 h2 => ?_, fun h3 h2 => ?_⟩
  · exact statusFlagDecode_exec line.data h3.1 h3.2
  · rw [statusFlagDecode_no_exec line.data h3, if_pos h2.1,
      contentFlagDecode_eq, if_pos h2.2]
  · rw [statusFlagDecode_no_exec line.data h3]
    by_cases h2a : 2 ≤ line.data.length
    · have hcf : contentFlagState (line.data.getD 1 ' ') = "" := by
        by_contra hx
        exact h2 ⟨h2a, hx⟩
      rw [if_pos h2a, contentFlagDecode_eq, hcf, if_neg (by simp),
        versionFlagDecode_eq]
    · rw [if_neg h2a, versionFlagDecode_eq]

theorem parseStatusLine_state_spec_witness :
    (parseStatusLine "+N  file.txt").first = "Created" := by
  exact ((parseStatusLine_state_spec "+N  file.txt" (by decide)).2.1
    (by decide) (by decide)).trans (by decide)

/-- C3 (counterexample): the claim's example line carries four spaces after
the question mark, so the character at index 4 is a space and the returned
path is `" unknown.txt"` with a leading space, not `"unknown.txt"`. -/
theorem parseStatusLine_path_counterexample :
    parseStatusLine "?    unknown.txt" = ⟨"Unknown", " unknown.txt"⟩ ∧
    (parseStatusLine "?    unknown.txt").second ≠ "unknown.txt" := by
  exact ⟨by decide, by decide⟩

/-- C3 (amended): for every non-empty line the returned path is the
substring starting at character index 4 regardless of the flags, and the
empty line yields an entirely empty result; on the claim's example line
(four spaces after the question mark) the state is `Unknown` and the path
is `" unknown.txt"`, keeping the space at index 4. -/
theorem parseStatusLine_path_amended :
    (∀ line : String, line ≠ "" →
      (parseStatusLine line).second = String.mk (line.data.drop 4)) ∧
    parseStatusLine "" = ⟨"", ""⟩ ∧
    parseStatusLine "?    unknown.txt" = ⟨"Unknown", " unknown.txt"⟩ := by
  refine ⟨fun line h => ?_, by decide, by decide⟩
  have hne : line.isEmpty = false := by
    rw [Bool.eq_false_iff]
    intro hx
    exact h ((String.isEmpty_iff line).mp hx)
  exact parseStatusLine_second line hne

theorem parseStatusLine_path_amended_witness :
    (parseStatusLine "+N  file.txt").second = "file.txt" := by
  exact (parseStatusLine_path_amended.1 "+N  file.txt"
    (by decide)).trans (by decide)

/-- C4 (counterexample): on a config whose two `bound_location` lines both
precede the `bound` line, the scan returns the SECOND location value — the
first matching line for a key does not determine the value, a later
duplicate overwrites it. -/
theorem scanBranchConf_counterexample :
    scanBranchConf
      ["bound_location = A", "bound_location = B", "bound = true"] "" "" =
      ("B", "true") ∧
    scanBranchConf
      ["bound_location = A", "bound_location = B", "bound = true"] "" "" ≠
      ("A", "true") := by
  exact ⟨by decide, by decide⟩

/-- C4 (amended): the scan processes lines sequentially and stops as soon
as both the `bound_location` value and the `bound` value are non-empty (or
at end of file); while the scan is still running, each line matching a
key's pattern overwrites that key's current value — so the last match seen
before the stop determines the value, not the first — and the `bound`
pattern is only consulted on lines that do not match `bound_location`. -/
theorem scanBranchConf_amended :
    (∀ (lines : List String) (loc bnd : String),
      loc.isEmpty = false → bnd.isEmpty = false →
      scanBranchConf lines loc bnd = (loc, bnd)) ∧
    (∀ (line : String) (rest : List String) (loc bnd cap : String),
      (loc.isEmpty || bnd.isEmpty) = true →
      keyValueCapture "bound_location".data line.data = some cap →
      scanBranchConf (line :: rest) loc bnd = scanBranchConf rest cap bnd)
    ∧
    (∀ (line : String) (rest : List String) (loc bnd cap : String),
      (loc.isEmpty || bnd.isEmpty) = true →
      keyValueCapture "bound_location".data line.data = none →
      keyValueCapture "bound".data line.data = some cap →
      scanBranchConf (line :: rest) loc bnd = scanBranchConf rest loc cap)
    ∧
    (∀ (line : String) (rest : List String) (loc bnd : String),
      (loc.isEmpty || bnd.isEmpty) = true →
      keyValueCapture "bound_location".data line.data = none →
      keyValueCapture "bound".data line.data = none →
      scanBranchConf (line :: rest) loc bnd = scanBranchConf rest loc bnd)
    := by
  refine ⟨?_, ?_, ?_, ?_⟩
  · intro lines loc bnd hl hb
    cases lines with
    | nil => rfl
    | cons line rest => simp [scanBranchConf, hl, hb]
  · intro line rest loc bnd cap hc hm
    simp [scanBranchConf, hc, hm]
  · intro line rest loc bnd cap hc hm1 hm2
    simp [scanBranchConf, hc, hm1, hm2]
  · intro line rest loc bnd hc hm1 hm2
    simp [scanBranchConf, hc, hm1, hm2]

theorem scanBranchConf_amended_witness :
    scanBranchConf ["bound_location = B"] "A" "" = ("B", "") ∧
    scanBranchConf ["no match here"] "A" "t" = ("A", "t") := by
  constructor
  · exact (scanBranchConf_amended.2.1 "bound_location = B" [] "A" "" "B"
      (by decide) (by decide)).trans rfl
  · exact scanBranchConf_amended.1 ["no match here"] "A" "t"
      (by decide) (by decide)

end Bazaar

namespace Bazaar

theorem dropWhile_append_allWs (a : List Char)
    (ha : ∀ c ∈ a, isWs c = true) (x : List Char) :
    (a ++ x).dropWhile isWs = x.dropWhile isWs := by
  induction a with
  | nil => rfl
  | cons c a' ih =>
    have hc : isWs c = true := ha c (by simp)
    simp only [List.cons_append, List.dropWhile_cons, hc, if_pos]
    exact ih (fun d hd => ha d (by simp [hd])) 

theorem dropWhile_eq_self_of_noWs (z : List Char)
    (hz : ∀ c ∈ z, isWs c = false) : z.dropWhile isWs = z := by
  cases z with
  | nil => rfl
  | cons c z' =>
    have hc : isWs c = false := hz c (by simp)
    simp [List.dropWhile_cons, hc]

theorem wordsAux_allWs (b : List Char) (hb : ∀ c ∈ b, isWs c = true) :
    ∀ cur, wordsAux cur b = if cur.isEmpty then [] else [cur.reverse] := by
  induction b with
  | nil => intro cur; rfl
  | cons c b' ih =>
    intro cur
    have hc : isWs c = true := hb c (by simp)
    have ih' := ih (fun d hd => hb d (by simp [hd]))
    by_cases hcur : cur.isEmpty
    · simp [wordsAux, hc, hcur, ih' []]
    · simp [wordsAux, hc, hcur, ih' []]

theorem wordsAux_append_allWs (b : List Char)
    (hb : ∀ c ∈ b, isWs c = true) :
    ∀ (x cur : List Char), wordsAux cur (x ++ b) = wordsAux cur x := by
  intro x
  induction x with
  | nil =>
    intro cur
    rw [List.nil_append, wordsAux_allWs b hb cur]
    rfl
  | cons c x' ih =>
    intro cur
    by_cases hc : isWs c
    · by_cases hcur : cur.isEmpty
      · simp [wordsAux, hc, hcur, ih]
      · simp [wordsAux, hc, hcur, ih]
    · simp [wordsAux, hc, ih]

theorem wordsAux_ws_prefix (a : List Char)
    (ha : ∀ c ∈ a, isWs c = true) (x : List Char) :
    wordsAux [] (a ++ x) = wordsAux [] x := by
  induction a with
  | nil => rfl
  | cons c a' ih =>
    have hc : isWs c = true := ha c (by simp)
    simp only [List.cons_append, wordsAux, hc, if_pos, List.isEmpty_nil,
      if_true]
    exact ih (fun d hd => ha d (by simp [hd]))

theorem wordsAux_noWs (w : List Char) (hw : ∀ c ∈ w, isWs c = false) :
    ∀ cur, wordsAux cur w =
      if cur.isEmpty && w.isEmpty then [] else [cur.reverse ++ w] := by
  induction w with
  | nil =>
    intro cur
    by_cases hcur : cur.isEmpty
    · simp_all [wordsAux]
    · simp_all [wordsAux]
  | cons c w' ih =>
    intro cur
    have hc : isWs c = false := hw c (by simp)
    have ih' := ih (fun d hd => hw d (by simp [hd])) (c :: cur)
    simp only [wordsAux, hc, Bool.false_eq_true, if_false, ih',
      List.isEmpty_cons, Bool.and_false, List.reverse_cons,
      List.append_assoc, List.cons_append, List.nil_append]
    simp

theorem words_decomp_eq (a w b : List Char)
    (ha : ∀ c ∈ a, isWs c = true) (hb : ∀ c ∈ b, isWs c = true)
    (hw : ∀ c ∈ w, isWs c = false) (hne : w ≠ []) :
    words (a ++ w ++ b) = [w] := by
  rw [words, List.append_assoc, wordsAux_ws_prefix a ha,
    wordsAux_append_allWs b hb, wordsAux_noWs w hw []]
  cases w with
  | nil => exact absurd rfl hne
  | cons c w' => simp

end Bazaar

namespace Bazaar

theorem wordsAux_firstWord (x : List Char) :
    ∀ cur : List Char, cur.isEmpty = false →
      wordsAux cur x =
        (cur.reverse ++ x.takeWhile (fun c => !isWs c)) ::
          words (x.dropWhile (fun c => !isWs c)) := by
  induction x with
  | nil =>
    intro cur hcur
    simp [wordsAux, hcur, words]
  | cons c x' ih =>
    intro cur hcur
    by_cases hc : isWs c
    · have hnc : (!isWs c) = false := by simp [hc]
      simp only [wordsAux, hc, if_true, hcur, Bool.false_eq_true, if_false,
        List.takeWhile_cons, List.dropWhile_cons, hnc, Bool.not_true,
        List.append_nil]
      simp [words, wordsAux, hc]
    · have hc' : isWs c = false := by simpa using hc
      have hnc : (!isWs c) = true := by simp [hc']
      rw [List.takeWhile_cons, List.dropWhile_cons]
      simp only [hnc, if_true, wordsAux, hc', Bool.false_eq_true, if_false]
      rw [ih (c :: cur) rfl]
      simp

theorem allWs_of_words_nil (z : List Char) (h : words z = []) :
    ∀ c ∈ z, isWs c = true := by
  induction z with
  | nil => simp
  | cons c z' ih =>
    by_cases hc : isWs c
    · have h' : words z' = [] := by
        rw [words] at h
        simpa [wordsAux, hc] using h
      intro d hd
      rcases List.mem_cons.mp hd with rfl | hd'
      · exact hc
      · exact ih h' d hd'
    · have hc' : isWs c = false := by simpa using hc
      rw [words, wordsAux, if_neg (by simp [hc'])] at h
      rw [wordsAux_firstWord z' [c] rfl] at h
      exact absurd h (by simp)

theorem words_singleton_decomp (m w : List Char) (h : words m = [w]) :
    ∃ a b, m = a ++ w ++ b ∧ (∀ c ∈ a, isWs c = true) ∧
      (∀ c ∈ b, isWs c = true) ∧ (∀ c ∈ w, isWs c = false) ∧ w ≠ [] := by
  induction m generalizing w with
  | nil => simp [words, wordsAux] at h
  | cons c m' ih =>
    by_cases hc : isWs c
    · have h' : words m' = [w] := by
        rw [words] at h
        simpa [wordsAux, hc] using h
      obtain ⟨a, b, hm, ha, hb, hw, hne⟩ := ih w h'
      exact ⟨c :: a, b, by simp [hm], fun d hd => by
        rcases List.mem_cons.mp hd with rfl | hd'
        · exact hc
        · exact ha d hd', hb, hw, hne⟩
    · have hc' : isWs c = false := by simpa using hc
      rw [words, wordsAux, if_neg (by simp [hc']),
        wordsAux_firstWord m' [c] rfl] at h
      obtain ⟨hw1, hw2⟩ := List.cons_eq_cons.mp h
      refine ⟨[], List.dropWhile (fun c => !isWs c) m', ?_, by simp,
        ?_, ?_, ?_⟩
      · rw [List.nil_append, ← hw1]
        simp [List.takeWhile_append_dropWhile]
      · exact allWs_of_words_nil _ hw2
      · intro d hd
        rw [← hw1] at hd
        rcases List.mem_cons.mp hd with rfl | hd'
        · exact hc'
        · have := List.mem_takeWhile_imp hd'
          simpa using this
      · rw [← hw1]
        simp
    
end Bazaar

namespace Bazaar

theorem trimmed_of_decomp (a w b : List Char)
    (ha : ∀ c ∈ a, isWs c = true) (hb : ∀ c ∈ b, isWs c = true)
    (hw : ∀ c ∈ w, isWs c = false) (hne : w ≠ []) :
    trimmedChars (a ++ w ++ b) = w := by
  rw [trimmedChars, List.append_assoc, dropWhile_append_allWs a ha]
  have h1 : (w ++ b).dropWhile isWs = w ++ b := by
    cases w with
    | nil => exact absurd rfl hne
    | cons c w' =>
      have hc : isWs c = false := hw c (by simp)
      simp [List.dropWhile_cons, hc]
  rw [h1, List.reverse_append, dropWhile_append_allWs b.reverse
      (fun c hc => hb c (List.mem_reverse.mp hc)),
    dropWhile_eq_self_of_noWs w.reverse
      (fun c hc => hw c (List.mem_reverse.mp hc)),
    List.reverse_reverse]

theorem trimmed_decomp (l : List Char) :
    ∃ a b, l = a ++ trimmedChars l ++ b ∧ (∀ c ∈ a, isWs c = true) ∧
      (∀ c ∈ b, isWs c = true) := by
  have hy : l.dropWhile isWs = trimmedChars l ++
      ((l.dropWhile isWs).reverse.takeWhile isWs).reverse := by
    have h0 := List.takeWhile_append_dropWhile isWs
      (l.dropWhile isWs).reverse
    have h1 := congrArg List.reverse h0
    rw [List.reverse_append] at h1
    simpa [trimmedChars] using h1.symm
  refine ⟨l.takeWhile isWs,
    ((l.dropWhile isWs).reverse.takeWhile isWs).reverse, ?_, ?_, ?_⟩
  · conv_lhs => rw [← List.takeWhile_append_dropWhile isWs l, hy]
    rw [List.append_assoc]
  · intro c hc
    exact List.mem_takeWhile_imp hc
  · intro c hc
    exact List.mem_takeWhile_imp (List.mem_reverse.mp hc)

theorem isWs_cases (c : Char) (h : isWs c = true) :
    c = ' ' ∨ c = '\t' ∨ c = '\r' ∨ c = '\n' := by
  simp [isWs, Char.isWhitespace] at h
  tauto

theorem toLower_ws (c : Char) (h : isWs c = true) :
    Char.toLower c = c := by
  rcases isWs_cases c h with rfl | rfl | rfl | rfl <;> decide

theorem noWs_of_lower_true (w : List Char)
    (h : lowerChars w = "true".data) : ∀ c ∈ w, isWs c = false := by
  intro c hc
  by_contra hx
  have hws : isWs c = true := by simpa using hx
  have hmem : Char.toLower c ∈ lowerChars w := List.mem_map_of_mem _ hc
  rw [h, toLower_ws c hws] at hmem
  rcases isWs_cases c hws with rfl | rfl | rfl | rfl <;>
    exact absurd hmem (by decide)

theorem ne_nil_of_lower_true (w : List Char)
    (h : lowerChars w = "true".data) : w ≠ [] := by
  intro hnil
  rw [hnil] at h
  exact absurd h (by decide)

theorem intercalate_singleton (w : List Char) :
    List.intercalate [' '] [w] = w := by
  simp [List.intercalate]

theorem mem_intercalate_cons_cons (w1 w2 : List Char)
    (rest : List (List Char)) :
    ' ' ∈ List.intercalate [' '] (w1 :: w2 :: rest) := by
  simp [List.intercalate, List.intersperse_cons_cons]

theorem simplified_true_iff_trimmed (l : List Char) :
    lowerChars (simplifiedChars l) = "true".data ↔
      lowerChars (trimmedChars l) = "true".data := by
  constructor
  · intro h
    rcases hw : words l with _ | ⟨w, ws⟩
    · rw [simplifiedChars, hw] at h
      exact absurd h (by decide)
    · rcases ws with _ | ⟨w2, rest⟩
      · rw [simplifiedChars, hw, intercalate_singleton] at h
        obtain ⟨a, b, hm, ha, hb, hnw, hne⟩ := words_singleton_decomp l w hw
        rw [hm, trimmed_of_decomp a w b ha hb hnw hne]
        exact h
      · exfalso
        have hsp : ' ' ∈ simplifiedChars l := by
          rw [simplifiedChars, hw]
          exact mem_intercalate_cons_cons w w2 rest
        have hmem : Char.toLower ' ' ∈ lowerChars (simplifiedChars l) :=
          List.mem_map_of_mem _ hsp
        rw [h] at hmem
        exact absurd hmem (by decide)
  · intro h
    have hnw := noWs_of_lower_true _ h
    have hne := ne_nil_of_lower_true _ h
    obtain ⟨a, b, hm, ha, hb⟩ := trimmed_decomp l
    have hwords : words l = [trimmedChars l] := by
      conv_lhs => rw [hm]
      exact words_decomp_eq a _ b ha hb hnw hne
    rw [simplifiedChars, hwords, intercalate_singleton]
    exact h

end Bazaar

namespace Bazaar

/-- C5: `synchronousBranchQuery` returns an empty location and `false` when
the branch config file is absent; otherwise, when the scanned `bound` value
equals the token `true` case-insensitively after trimming, it returns the
parsed `bound_location` value with `isBound = true`, and in every other
case it returns the repository root itself with `isBound = false`. -/
theorem synchronousBranchQuery_spec :
    (∀ repositoryRoot, synchronousBranchQuery repositoryRoot none =
      ⟨"", false⟩) ∧
    (∀ repositoryRoot lines,
      (lowerChars (trimmedChars (scanBranchConf lines "" "").2.data) =
          "true".data →
        synchronousBranchQuery repositoryRoot (some lines) =
          ⟨(scanBranchConf lines "" "").1, true⟩) ∧
      (lowerChars (trimmedChars (scanBranchConf lines "" "").2.data) ≠
          "true".data →
        synchronousBranchQuery repositoryRoot (some lines) =
          ⟨repositoryRoot, false⟩)) := by
  refine ⟨fun root => rfl, fun root lines => ⟨fun ht => ?_, fun ht => ?_⟩⟩
  · simp only [synchronousBranchQuery]
    rw [if_pos ((simplified_true_iff_trimmed _).mpr ht)]
  · simp only [synchronousBranchQuery]
    rw [if_neg (fun hx => ht ((simplified_true_iff_trimmed _).mp hx))]

theorem synchronousBranchQuery_spec_witness :
    synchronousBranchQuery "/root/repo"
      (some ["bound = True", "bound_location = /remote/path"]) =
      ⟨"/remote/path", true⟩ ∧
    synchronousBranchQuery "/root/repo"
      (some ["bound_location = /remote/path"]) =
      ⟨"/root/repo", false⟩ ∧
    synchronousBranchQuery "/root/repo" none = ⟨"", false⟩ := by
  refine ⟨?_, ?_, ?_⟩
  · exact ((synchronousBranchQuery_spec.2 "/root/repo"
      ["bound = True", "bound_location = /remote/path"]).1
      (by decide)).trans (by decide)
  · exact (synchronousBranchQuery_spec.2 "/root/repo"
      ["bound_location = /remote/path"]).2 (by decide)
  · exact synchronousBranchQuery_spec.1 "/root/repo"

end Bazaar
